import Mathlib

/-!
# WebsiteManager (src/index.js): the bookmark store

A shallow embedding of the class `WebsiteManager`: the in-memory collection
`this.websites`, the `localStorage` slot `'websites'`, the two input fields the
class reads, the list of `.website-item` elements it has rendered, and the toasts
it has shown.  Browser builtins whose tables are not part of the repository
(`String.prototype.toLowerCase`, `new URL(..).hostname`, `JSON.stringify`,
`JSON.parse`) are fields of a `Host`; every general theorem holds for every host.
JavaScript strings are modelled by `String` (sequences of code points), and the
rendered markup by the list of sites it was built from (urls, titles and tags are
taken not to contain markup of their own).  `deleteWebsite` is the method up to
its return and `deleteWebsiteCallback` the callback it schedules, so that a
callback can run late, on an index that is stale; `remove` is the call followed
at once by its callback.  `clearAll` is modelled together with its callbacks, run
in timer order with no other method in between.
-/

set_option autoImplicit false
set_option maxRecDepth 8000

namespace WebsiteManager

/-! ## Data model -/

/-- The record built in `saveWebsite` (lines 52-58). -/
structure Website where
  id : Int
  url : String
  tags : List String
  title : String
  timestamp : String
deriving DecidableEq, Repr

/-- The second argument of `showToast`. -/
inductive ToastType where
  | success
  | error
  | warning
deriving DecidableEq, Repr

/-- Exceptions the modelled code can raise. -/
inductive JsError where
  | syntaxError
  | typeError
deriving DecidableEq, Repr

/-- Browser builtins used by the class. `hostname u = none` and `parse b = none`
stand for the builtin throwing; `parse b = some ws` for `JSON.parse(b)` being an
array of records of the shape of `Website` (other JSON values are outside the
model). -/
structure Host where
  toLowerCase : String → String
  hostname : String → Option String
  stringify : List Website → String
  parse : String → Option (List Website)

/-- The state the class owns or touches.
`storage` is the `localStorage` slot `'websites'` (`none`: absent);
`setItemCalls` counts the calls of `localStorage.setItem`;
`container` lists the sites whose `.website-item` element is in the document;
`toasts` lists the `showToast` calls made so far. -/
structure Manager where
  websites : List Website
  storage : Option String
  setItemCalls : Nat
  urlInput : String
  tagInput : String
  container : List Website
  toasts : List (String × ToastType)
deriving DecidableEq, Repr

/-! ## String builtins with a fixed definition -/

/-- The characters `String.prototype.trim` strips: ECMAScript WhiteSpace
(TAB, VT, FF, ZWNBSP and the Unicode space separators) and LineTerminator
(LF, CR, LS, PS). -/
def isTrimChar (c : Char) : Bool :=
  let n := c.toNat
  n == 0x09 || n == 0x0A || n == 0x0B || n == 0x0C || n == 0x0D || n == 0x20 ||
  n == 0xA0 || n == 0x1680 || (0x2000 ≤ n && n ≤ 0x200A) || n == 0x2028 ||
  n == 0x2029 || n == 0x202F || n == 0x205F || n == 0x3000 || n == 0xFEFF

/-- The builtin `String.prototype.trim`. -/
def trim (s : String) : String :=
  String.mk ((s.data.dropWhile isTrimChar).reverse.dropWhile isTrimChar).reverse

/-- The builtin `split(',')` on the characters of a string: never empty, one more
piece than there are commas. -/
def splitComma : List Char → List (List Char)
  | [] => [[]]
  | c :: cs =>
    if c = ',' then [] :: splitComma cs
    else
      match splitComma cs with
      | [] => [[c]]
      | piece :: rest => (c :: piece) :: rest

/-- Line 39, second branch:
`this.tagInput.value.split(',').map(tag => tag.trim()).filter(tag => tag)`. -/
def parseTags (value : String) : List String :=
  (((splitComma value.data).map String.mk).map trim).filter (fun tag => tag != "")

/-- Whether the characters `q` start the characters `s`. -/
def startsWith : List Char → List Char → Bool
  | [], _ => true
  | _ :: _, [] => false
  | a :: q, b :: s => a == b && startsWith q s

/-- The builtin `String.prototype.includes` on characters: `q` occurs in `s` at
some position. -/
def includesChars (q : List Char) : List Char → Bool
  | [] => startsWith q []
  | c :: s => startsWith q (c :: s) || includesChars q s

/-- The call `s.includes(q)`. -/
def includes (s q : String) : Bool :=
  includesChars q.data s.data

/-! ## Methods of the class -/

/-- The method `showToast(message, type)`: the toast is shown (its timers only
animate and remove the element). -/
def showToast (s : Manager) (message : String) (type : ToastType) : Manager :=
  { s with toasts := s.toasts ++ [(message, type)] }

/-- The method `saveToStorage()` (lines 157-159). -/
def saveToStorage (h : Host) (s : Manager) : Manager :=
  { s with storage := some (h.stringify s.websites), setItemCalls := s.setItemCalls + 1 }

/-- The method `renderWebsites(websites)` (lines 128-147): the container holds one
`.website-item` per given site, in order (none: the placeholder is shown). -/
def renderWebsites (s : Manager) (websites : List Website) : Manager :=
  { s with container := websites }

/-- The method `render()` (lines 124-126). -/
def render (s : Manager) : Manager :=
  renderWebsites s s.websites

/-- The method `extractTitle(url)` (lines 149-155). -/
def extractTitle (h : Host) (url : String) : String :=
  match h.hostname url with
  | some host => host
  | none => url

/-- Line 38: `url || this.urlInput.value.trim()`; `none` is the default `null`. -/
def websiteUrlOf (s : Manager) (url : Option String) : String :=
  match url with
  | some u => if u = "" then trim s.urlInput else u
  | none => trim s.urlInput

/-- Line 39: `tags.length ? tags : <the pieces of the tag field>`. -/
def websiteTagsOf (s : Manager) (tags : List String) : List String :=
  if tags.length ≠ 0 then tags else parseTags s.tagInput

/-- The method `saveWebsite(url = null, tags = [])` (lines 37-68).
`now` is the value of `Date.now()` and `iso` of `new Date().toISOString()`. -/
def saveWebsite (h : Host) (now : Int) (iso : String) (s : Manager)
    (url : Option String) (tags : List String) : Manager :=
  let websiteUrl := websiteUrlOf s url
  let websiteTags := websiteTagsOf s tags
  if websiteUrl = "" then
    showToast s "请输入网址！" ToastType.error
  else if s.websites.any (fun site => site.url == websiteUrl) then
    showToast s "该网址已存在！" ToastType.warning
  else
    let website : Website :=
      { id := now, url := websiteUrl, tags := websiteTags,
        title := extractTitle h websiteUrl, timestamp := iso }
    let s1 := { s with websites := s.websites ++ [website] }
    let s2 := saveToStorage h s1
    let s3 := render s2
    let s4 := showToast s3 "保存成功！" ToastType.success
    { s4 with urlInput := "", tagInput := "" }

/-- The builtin `Array.prototype.findIndex`; `none` is the result `-1`. -/
def findIndex (p : Website → Bool) : List Website → Option Nat
  | [] => none
  | w :: ws => if p w then some 0 else (findIndex p ws).map (· + 1)

/-- Line 85: the first element of the document whose `data-id` is the id, or null. -/
def querySelector (s : Manager) (id : Int) : Option Website :=
  s.container.find? (fun site => site.id == id)

/-- The method `shatterEffect(element, callback)` (lines 193-231) up to its
`setTimeout`: line 194 throws a TypeError on a null element, otherwise the
callback is scheduled. -/
def shatterEffect (element : Option Website) : Except JsError Unit :=
  match element with
  | none => Except.error JsError.typeError
  | some _ => Except.ok ()

/-- The callback of lines 86-91, with the `index` its closure captured. -/
def deleteWebsiteCallback (h : Host) (index : Nat) (s : Manager) : Manager :=
  let s1 := { s with websites := s.websites.eraseIdx index }
  let s2 := saveToStorage h s1
  let s3 := render s2
  showToast s3 "删除成功！" ToastType.success

/-- The method `deleteWebsite(id)` (lines 82-93) up to its return. The result
`some index` is the index computed at line 83 and captured by the callback that
`shatterEffect` schedules for 300 ms later; `none`: no entry has this id and
nothing is scheduled. The call itself assigns nothing to the state. -/
def deleteWebsite (s : Manager) (id : Int) : Except JsError (Option Nat) :=
  match findIndex (fun site => site.id == id) s.websites with
  | none => Except.ok none
  | some index =>
    match shatterEffect (querySelector s id) with
    | Except.error e => Except.error e
    | Except.ok () => Except.ok (some index)

/-- A call of `deleteWebsite(id)` followed by the callback it scheduled, with no
other method and no other callback in between. -/
def remove (h : Host) (s : Manager) (id : Int) : Except JsError Manager :=
  match deleteWebsite s id with
  | Except.error e => Except.error e
  | Except.ok none => Except.ok s
  | Except.ok (some index) => Except.ok (deleteWebsiteCallback h index s)

/-- The callback of lines 103-111: `completed` is the counter shared by the
closures, `total` is `elements.length`. -/
def clearAllCallback (h : Host) (total : Nat) (st : Nat × Manager) : Nat × Manager :=
  let completed := st.1 + 1
  if completed = total then
    let s1 := { st.2 with websites := [] }
    let s2 := saveToStorage h s1
    let s3 := render s2
    (completed, showToast s3 "全部清空！" ToastType.success)
  else
    (completed, st.2)

/-- The method `clearAll()` (lines 95-114) followed by its deferred callbacks, one
per `.website-item` element, no other method running in between. -/
def clearAll (h : Host) (s : Manager) : Manager :=
  if s.websites.length = 0 then s
  else
    let elements := s.container
    (elements.foldl (fun st _ => clearAllCallback h elements.length st) (0, s)).2

/-- The filter predicate of lines 117-120. -/
def searchMatches (h : Host) (query : String) (site : Website) : Bool :=
  includes (h.toLowerCase site.url) (h.toLowerCase query) ||
  site.tags.any (fun tag => includes (h.toLowerCase tag) (h.toLowerCase query))

/-- The method `search(query)` (lines 116-122). -/
def search (h : Host) (s : Manager) (query : String) : Manager :=
  let filtered := s.websites.filter (searchMatches h query)
  renderWebsites s filtered

/-- The constructor (lines 3-9): `slot` is `localStorage.getItem('websites')`,
`urlField` and `tagField` the values of the two input elements. -/
def construct (h : Host) (slot : Option String) (urlField tagField : String) :
    Except JsError Manager :=
  let blob := match slot with
    | some b => if b = "" then "[]" else b
    | none => "[]"
  match h.parse blob with
  | none => Except.error JsError.syntaxError
  | some websites =>
    Except.ok (render
      { websites := websites, storage := slot, setItemCalls := 0,
        urlInput := urlField, tagInput := tagField, container := [], toasts := [] })

/-! ## The store as a transition system -/

/-- One user intent reaching the store and carried through. `add`, `remove`,
`clear` and `search` are the four store methods, `remove` and `clear` with their
deferred callbacks run before anything else; `typeUrl` and `typeTags` are the
user editing the two input fields. -/
inductive Op where
  | add (now : Int) (iso : String) (url : Option String) (tags : List String)
  | remove (id : Int)
  | clear
  | search (query : String)
  | typeUrl (value : String)
  | typeTags (value : String)

/-- The state after one operation; a `deleteWebsite` that throws leaves the state
as it was (nothing is assigned before line 194). -/
def step (h : Host) (s : Manager) : Op → Manager
  | Op.add now iso url tags => saveWebsite h now iso s url tags
  | Op.remove id =>
    match remove h s id with
    | Except.ok s1 => s1
    | Except.error _ => s
  | Op.clear => clearAll h s
  | Op.search query => search h s query
  | Op.typeUrl value => { s with urlInput := value }
  | Op.typeTags value => { s with tagInput := value }

/-- States reachable from a store whose collection is empty: by the operations
of the store, and by a deferred callback running late, in any state and (for the
callback of `deleteWebsite`) with any captured index. -/
inductive Reachable (h : Host) : Manager → Prop where
  | init (s : Manager) : s.websites = [] → Reachable h s
  | next (s : Manager) (op : Op) : Reachable h s → Reachable h (step h s op)
  | lateDelete (s : Manager) (index : Nat) :
      Reachable h s → Reachable h (deleteWebsiteCallback h index s)
  | lateClear (s : Manager) :
      Reachable h s →
      Reachable h (showToast (render (saveToStorage h { s with websites := [] }))
        "全部清空！" ToastType.success)

/-! ## Vocabulary of the specification -/

/-- No two entries share the same url (exact string equality). -/
def UrlsUnique (ws : List Website) : Prop :=
  ws.Pairwise (fun a b => a.url ≠ b.url)

/-- The slot holds the serialization of the collection. -/
def WrittenThrough (h : Host) (s : Manager) : Prop :=
  s.storage = some (h.stringify s.websites)

instance (ws : List Website) : Decidable (UrlsUnique ws) := by
  unfold UrlsUnique
  infer_instance

instance (h : Host) (s : Manager) : Decidable (WrittenThrough h s) := by
  unfold WrittenThrough
  infer_instance

/-- Spec wording: `q` is a case-insensitive substring of `s`, that is, the
lowercased `q` occurs as a contiguous run inside the lowercased `s`. -/
def CiSubstring (h : Host) (s q : String) : Prop :=
  ∃ pre suf : List Char, (h.toLowerCase s).data = pre ++ (h.toLowerCase q).data ++ suf

/-- Spec wording: the url contains the query, or at least one tag does. -/
def SpecMatches (h : Host) (q : String) (site : Website) : Prop :=
  CiSubstring h site.url q ∨ ∃ tag ∈ site.tags, CiSubstring h tag q

/-- The entry `saveWebsite` builds when it accepts its arguments. -/
def newEntry (h : Host) (now : Int) (iso : String) (s : Manager)
    (url : Option String) (tags : List String) : Website :=
  { id := now, url := websiteUrlOf s url, tags := websiteTagsOf s tags,
    title := extractTitle h (websiteUrlOf s url), timestamp := iso }

/-- The state `clearAll` leaves once its last callback has run. -/
def cleared (h : Host) (s : Manager) : Manager :=
  showToast (render (saveToStorage h { s with websites := [] })) "全部清空！" ToastType.success

/-! ## A concrete host for the examples -/

/-- A JSON string literal for a string with no character that needs escaping. -/
def demoQuote (s : String) : String :=
  "\"" ++ s ++ "\""

/-- The JSON text of a collection whose strings need no escaping. -/
def demoStringify (ws : List Website) : String :=
  "[" ++ ",".intercalate (ws.map fun w =>
    "\x7b\"id\":" ++ toString w.id ++ ",\"url\":" ++ demoQuote w.url ++
    ",\"tags\":[" ++ ",".intercalate (w.tags.map demoQuote) ++
    "],\"title\":" ++ demoQuote w.title ++
    ",\"timestamp\":" ++ demoQuote w.timestamp ++ "\x7d") ++ "]"

/-- A host that agrees with the browser on the inputs of the examples below:
ASCII lowercasing; `new URL` rejecting a string without a scheme; JSON text of
records without characters to escape; `JSON.parse` on the text of the empty array
and on a text that is not JSON. -/
def demoHost : Host where
  toLowerCase := fun s => String.mk (s.data.map Char.toLower)
  hostname := fun _ => none
  stringify := demoStringify
  parse := fun b => if b = "[]" then some [] else none

/-- A freshly loaded store with nothing saved and empty input fields. -/
def emptyManager : Manager :=
  { websites := [], storage := none, setItemCalls := 0, urlInput := "", tagInput := "",
    container := [], toasts := [] }

/-- First entry of the search example of the specification. -/
def siteExample : Website :=
  { id := 1, url := "https://Example.com", tags := ["News"], title := "example.com",
    timestamp := "2024-01-01T00:00:00.000Z" }

/-- Second entry of the search example of the specification. -/
def siteTest : Website :=
  { id := 2, url := "https://test.org", tags := ["dev"], title := "test.org",
    timestamp := "2024-01-01T00:00:01.000Z" }

/-- An entry without tags. -/
def siteUntagged : Website :=
  { id := 3, url := "abc", tags := [], title := "abc", timestamp := "2024-01-01T00:00:02.000Z" }

/-- A store holding `ws`, all of it rendered and written through by the demo host. -/
def shown (ws : List Website) : Manager :=
  { websites := ws, storage := some (demoStringify ws), setItemCalls := 0, urlInput := "",
    tagInput := "", container := ws, toasts := [] }

/-- A store holding `ws`, all of it rendered, whose input fields hold the given texts. -/
def shownTyped (ws : List Website) (urlField tagField : String) : Manager :=
  { websites := ws, storage := some (demoStringify ws), setItemCalls := 0,
    urlInput := urlField, tagInput := tagField, container := ws, toasts := [] }

/-- The store after two successful saves in the same clock tick 7. -/
def twinsManager : Manager :=
  saveWebsite demoHost 7 "2024-01-01T00:00:04.000Z"
    (saveWebsite demoHost 7 "2024-01-01T00:00:04.000Z" emptyManager (some "a") []) (some "b") []

/-- An entry whose url is already saved, with its own tags. -/
def siteOld : Website :=
  { id := 4, url := "abc", tags := ["old"], title := "abc", timestamp := "2024-01-01T00:00:03.000Z" }

/-! ## Lemmas on the builtins -/

theorem startsWith_iff (q s : List Char) :
    startsWith q s = true ↔ ∃ suf, s = q ++ suf := by
  induction q generalizing s with
  | nil => simp [startsWith]
  | cons a q ih =>
    cases s with
    | nil => simp [startsWith]
    | cons b s =>
      simp only [startsWith, Bool.and_eq_true, beq_iff_eq, ih, List.cons_append, List.cons.injEq]
      constructor
      · rintro ⟨rfl, suf, rfl⟩
        exact ⟨suf, rfl, rfl⟩
      · rintro ⟨suf, rfl, rfl⟩
        exact ⟨rfl, suf, rfl⟩

theorem includesChars_iff (q s : List Char) :
    includesChars q s = true ↔ ∃ pre suf, s = pre ++ q ++ suf := by
  induction s with
  | nil =>
    rw [includesChars, startsWith_iff]
    constructor
    · rintro ⟨suf, hs⟩
      exact ⟨[], suf, by simpa using hs⟩
    · rintro ⟨pre, suf, hs⟩
      have h1 : pre = [] ∧ q = [] ∧ suf = [] := by simpa [eq_comm] using hs
      exact ⟨[], by simp [h1.2.1]⟩
  | cons c s ih =>
    rw [includesChars, Bool.or_eq_true, startsWith_iff, ih]
    constructor
    · rintro (⟨suf, hs⟩ | ⟨pre, suf, hs⟩)
      · exact ⟨[], suf, by simpa using hs⟩
      · exact ⟨c :: pre, suf, by simp [hs]⟩
    · rintro ⟨pre, suf, hs⟩
      cases pre with
      | nil => exact Or.inl ⟨suf, by simpa using hs⟩
      | cons a pre =>
        simp only [List.cons_append, List.cons.injEq] at hs
        exact Or.inr ⟨pre, suf, by simpa using hs.2⟩

theorem includes_iff (h : Host) (s q : String) :
    includes (h.toLowerCase s) (h.toLowerCase q) = true ↔ CiSubstring h s q := by
  unfold includes CiSubstring
  exact includesChars_iff _ _

theorem searchMatches_iff (h : Host) (q : String) (site : Website) :
    searchMatches h q site = true ↔ SpecMatches h q site := by
  unfold searchMatches SpecMatches
  simp only [Bool.or_eq_true, List.any_eq_true, includes_iff]

theorem includesChars_nil (s : List Char) : includesChars [] s = true := by
  cases s <;> simp [includesChars, startsWith]


theorem trim_blank (v : String) (hv : ∀ c ∈ v.data, isTrimChar c = true) : trim v = "" := by
  have h1 : v.data.dropWhile isTrimChar = [] := by
    rw [List.dropWhile_eq_nil_iff]
    exact hv
  unfold trim
  rw [h1]
  rfl

/-! ## Lemmas on `saveWebsite` -/

theorem any_url_iff (ws : List Website) (u : String) :
    ws.any (fun site => site.url == u) = true ↔ ∃ site ∈ ws, site.url = u := by
  simp [List.any_eq_true]

theorem saveWebsite_blank (h : Host) (now : Int) (iso : String) (s : Manager)
    (url : Option String) (tags : List String) (hurl : websiteUrlOf s url = "") :
    saveWebsite h now iso s url tags = showToast s "请输入网址！" ToastType.error := by
  simp [saveWebsite, hurl]

theorem saveWebsite_dup (h : Host) (now : Int) (iso : String) (s : Manager)
    (url : Option String) (tags : List String) (hurl : websiteUrlOf s url ≠ "")
    (hdup : ∃ site ∈ s.websites, site.url = websiteUrlOf s url) :
    saveWebsite h now iso s url tags = showToast s "该网址已存在！" ToastType.warning := by
  have hany := (any_url_iff s.websites (websiteUrlOf s url)).2 hdup
  simp only [saveWebsite, hurl, if_false, hany, if_true]

theorem saveWebsite_fresh (h : Host) (now : Int) (iso : String) (s : Manager)
    (url : Option String) (tags : List String) (hurl : websiteUrlOf s url ≠ "")
    (hnew : ∀ site ∈ s.websites, site.url ≠ websiteUrlOf s url) :
    saveWebsite h now iso s url tags =
      { websites := s.websites ++ [newEntry h now iso s url tags],
        storage := some (h.stringify (s.websites ++ [newEntry h now iso s url tags])),
        setItemCalls := s.setItemCalls + 1,
        urlInput := "", tagInput := "",
        container := s.websites ++ [newEntry h now iso s url tags],
        toasts := s.toasts ++ [("保存成功！", ToastType.success)] } := by
  have hany : s.websites.any (fun site => site.url == websiteUrlOf s url) = false := by
    rw [Bool.eq_false_iff, Ne, any_url_iff]
    rintro ⟨site, hmem, heq⟩
    exact hnew site hmem heq
  simp only [saveWebsite, hurl, if_false, hany, Bool.false_eq_true, showToast, render,
    renderWebsites, saveToStorage, newEntry]

theorem websiteUrlOf_some (s : Manager) (u : String) (hne : u ≠ "") :
    websiteUrlOf s (some u) = u := by
  simp [websiteUrlOf, hne]

theorem websiteTagsOf_eq (s : Manager) (tags : List String) :
    websiteTagsOf s tags = if tags = [] then parseTags s.tagInput else tags := by
  unfold websiteTagsOf
  cases tags <;> simp

theorem filter_url_append_fresh (ws : List Website) (e : Website)
    (hnew : ∀ site ∈ ws, site.url ≠ e.url) :
    (ws ++ [e]).filter (fun site => decide (site.url = e.url)) = [e] := by
  rw [List.filter_append]
  have h1 : ws.filter (fun site => decide (site.url = e.url)) = [] := by
    rw [List.filter_eq_nil_iff]
    intro site hmem
    simpa using hnew site hmem
  rw [h1]
  simp

/-! ## Lemmas on `deleteWebsite` and `remove` -/

theorem findIndex_none_iff (p : Website → Bool) (ws : List Website) :
    findIndex p ws = none ↔ ∀ w ∈ ws, p w = false := by
  induction ws with
  | nil => simp [findIndex]
  | cons w ws ih =>
    unfold findIndex
    by_cases hp : p w = true
    · simp [hp]
    · simp [hp, ih]

theorem findIndex_some_split (p : Website → Bool) (ws : List Website) (i : Nat)
    (hfind : findIndex p ws = some i) :
    ∃ pre w suf, ws = pre ++ w :: suf ∧ pre.length = i ∧ p w = true ∧
      ∀ x ∈ pre, p x = false := by
  induction ws generalizing i with
  | nil => simp [findIndex] at hfind
  | cons w ws ih =>
    unfold findIndex at hfind
    by_cases hp : p w = true
    · simp only [hp, if_true, Option.some.injEq] at hfind
      exact ⟨[], w, ws, rfl, by simpa using hfind, hp, by simp⟩
    · simp only [hp, Bool.false_eq_true, if_false, Option.map_eq_some'] at hfind
      obtain ⟨j, hj, rfl⟩ := hfind
      obtain ⟨pre, x, suf, hws, hlen, hx, hpre⟩ := ih j hj
      refine ⟨w :: pre, x, suf, by simp [hws], by simp [hlen], hx, ?_⟩
      intro y hy
      rcases List.mem_cons.1 hy with rfl | hy
      · simpa using hp
      · exact hpre y hy

theorem eraseIdx_split (pre suf : List Website) (w : Website) :
    (pre ++ w :: suf).eraseIdx pre.length = pre ++ suf := by
  induction pre with
  | nil => rfl
  | cons a pre ih => simp [List.eraseIdx, ih]

theorem remove_absent (h : Host) (s : Manager) (id : Int)
    (habs : ∀ site ∈ s.websites, site.id ≠ id) :
    remove h s id = Except.ok s := by
  have h1 : findIndex (fun site => site.id == id) s.websites = none := by
    rw [findIndex_none_iff]
    intro w hw
    simpa using habs w hw
  simp [remove, deleteWebsite, h1]

/-! ## Lemmas on `clearAll` -/

theorem clearAll_fold (h : Host) (total : Nat) (l : List Website) (c : Nat) (s : Manager) :
    (c + l.length < total →
      l.foldl (fun st _ => clearAllCallback h total st) (c, s) = (c + l.length, s)) ∧
    (c + l.length = total → l ≠ [] →
      l.foldl (fun st _ => clearAllCallback h total st) (c, s) = (total, cleared h s)) := by
  induction l generalizing c with
  | nil => simp
  | cons x l ih =>
    constructor
    · intro hlt
      have hne : ¬ c + 1 = total := by simp only [List.length_cons] at hlt; omega
      have hstep : clearAllCallback h total (c, s) = (c + 1, s) := by
        simp [clearAllCallback, hne]
      rw [List.foldl_cons, hstep, (ih (c + 1)).1 (by simp only [List.length_cons] at hlt; omega)]
      simp only [List.length_cons]
      congr 1
      omega
    · intro heq _
      by_cases hl : l = []
      · subst hl
        have hc : c + 1 = total := by simpa using heq
        simp [clearAllCallback, hc, cleared]
      · have hne : ¬ c + 1 = total := by
          have : 0 < l.length := List.length_pos.2 hl
          simp only [List.length_cons] at heq
          omega
        have hstep : clearAllCallback h total (c, s) = (c + 1, s) := by
          simp [clearAllCallback, hne]
        rw [List.foldl_cons, hstep]
        exact (ih (c + 1)).2 (by simp only [List.length_cons] at heq; omega) hl

theorem clearAll_shown (h : Host) (s : Manager) (hne : s.websites ≠ [])
    (hshown : s.container ≠ []) : clearAll h s = cleared h s := by
  have hlen : ¬ s.websites.length = 0 := by simpa using hne
  unfold clearAll
  simp only [hlen, if_false]
  rw [(clearAll_fold h s.container.length s.container 0 s).2 (by simp) hshown]

theorem clearAll_hidden (h : Host) (s : Manager) (hhidden : s.container = []) :
    clearAll h s = s := by
  unfold clearAll
  split
  · rfl
  · rw [hhidden]
    rfl

theorem clearAll_cases (h : Host) (s : Manager) :
    clearAll h s = s ∨ (s.websites ≠ [] ∧ clearAll h s = cleared h s) := by
  by_cases hne : s.websites = []
  · left
    simp [clearAll, hne]
  · by_cases hshown : s.container = []
    · exact Or.inl (clearAll_hidden h s hshown)
    · exact Or.inr ⟨hne, clearAll_shown h s hne hshown⟩


theorem saveWebsite_cases (h : Host) (now : Int) (iso : String) (s : Manager)
    (url : Option String) (tags : List String) :
    saveWebsite h now iso s url tags = showToast s "请输入网址！" ToastType.error ∨
    saveWebsite h now iso s url tags = showToast s "该网址已存在！" ToastType.warning ∨
    (websiteUrlOf s url ≠ "" ∧ (∀ site ∈ s.websites, site.url ≠ websiteUrlOf s url) ∧
      saveWebsite h now iso s url tags =
        { websites := s.websites ++ [newEntry h now iso s url tags],
          storage := some (h.stringify (s.websites ++ [newEntry h now iso s url tags])),
          setItemCalls := s.setItemCalls + 1,
          urlInput := "", tagInput := "",
          container := s.websites ++ [newEntry h now iso s url tags],
          toasts := s.toasts ++ [("保存成功！", ToastType.success)] }) := by
  by_cases hurl : websiteUrlOf s url = ""
  · exact Or.inl (saveWebsite_blank h now iso s url tags hurl)
  · by_cases hdup : ∃ site ∈ s.websites, site.url = websiteUrlOf s url
    · exact Or.inr (Or.inl (saveWebsite_dup h now iso s url tags hurl hdup))
    · have hnew : ∀ site ∈ s.websites, site.url ≠ websiteUrlOf s url := by
        intro site hmem heq
        exact hdup ⟨site, hmem, heq⟩
      exact Or.inr (Or.inr ⟨hurl, hnew, saveWebsite_fresh h now iso s url tags hurl hnew⟩)

theorem remove_cases (h : Host) (s : Manager) (id : Int) :
    ((∀ site ∈ s.websites, site.id ≠ id) ∧ remove h s id = Except.ok s) ∨
    ((∀ site ∈ s.container, site.id ≠ id) ∧
      remove h s id = Except.error JsError.typeError) ∨
    ∃ pre w suf, s.websites = pre ++ w :: suf ∧ w.id = id ∧ (∀ x ∈ pre, x.id ≠ id) ∧
      remove h s id = Except.ok (deleteWebsiteCallback h pre.length s) ∧
      (deleteWebsiteCallback h pre.length s).websites = pre ++ suf := by
  cases hfind : findIndex (fun site => site.id == id) s.websites with
  | none =>
    left
    have habs : ∀ site ∈ s.websites, site.id ≠ id := by
      intro site hmem
      simpa using (findIndex_none_iff _ _).1 hfind site hmem
    exact ⟨habs, remove_absent h s id habs⟩
  | some i =>
    right
    obtain ⟨pre, w, suf, hws, hlen, hw, hpre⟩ := findIndex_some_split _ _ _ hfind
    cases hq : querySelector s id with
    | none =>
      left
      constructor
      · intro site hmem
        have h1 := List.find?_eq_none.1 hq site hmem
        simpa using h1
      · simp [remove, deleteWebsite, hfind, hq, shatterEffect]
    | some el =>
      right
      refine ⟨pre, w, suf, hws, by simpa using hw, ?_, ?_, ?_⟩
      · intro x hx
        simpa using hpre x hx
      · simp [remove, deleteWebsite, hfind, hq, shatterEffect, hlen]
      · simp only [deleteWebsiteCallback, showToast, render, renderWebsites, saveToStorage]
        rw [hws, eraseIdx_split]

theorem deleteWebsiteCallback_fields (h : Host) (i : Nat) (s : Manager) :
    (deleteWebsiteCallback h i s).storage =
        some (h.stringify (deleteWebsiteCallback h i s).websites) ∧
    (deleteWebsiteCallback h i s).setItemCalls = s.setItemCalls + 1 ∧
    (deleteWebsiteCallback h i s).container = (deleteWebsiteCallback h i s).websites ∧
    (deleteWebsiteCallback h i s).websites = s.websites.eraseIdx i := by
  simp [deleteWebsiteCallback, showToast, render, renderWebsites, saveToStorage]

theorem urlsUnique_append (ws : List Website) (e : Website) (hu : UrlsUnique ws)
    (hnew : ∀ site ∈ ws, site.url ≠ e.url) : UrlsUnique (ws ++ [e]) := by
  unfold UrlsUnique at *
  rw [List.pairwise_append]
  refine ⟨hu, List.pairwise_singleton _ _, ?_⟩
  intro a ha b hb
  rw [List.mem_singleton] at hb
  subst hb
  exact hnew a ha

theorem saveWebsite_unique (h : Host) (now : Int) (iso : String) (s : Manager)
    (url : Option String) (tags : List String) (hu : UrlsUnique s.websites) :
    UrlsUnique (saveWebsite h now iso s url tags).websites := by
  rcases saveWebsite_cases h now iso s url tags with hc | hc | ⟨_, hnew, hc⟩
  · rw [hc]
    exact hu
  · rw [hc]
    exact hu
  · rw [hc]
    exact urlsUnique_append s.websites _ hu hnew

theorem callback_unique (h : Host) (s : Manager) (index : Nat)
    (hu : UrlsUnique s.websites) : UrlsUnique (deleteWebsiteCallback h index s).websites := by
  rw [(deleteWebsiteCallback_fields h index s).2.2.2]
  exact List.Pairwise.sublist (List.eraseIdx_sublist _ _) hu

theorem remove_unique (h : Host) (s s1 : Manager) (id : Int)
    (hu : UrlsUnique s.websites) (hok : remove h s id = Except.ok s1) :
    UrlsUnique s1.websites := by
  rcases remove_cases h s id with ⟨_, hc⟩ | ⟨_, hc⟩ | ⟨pre, w, suf, _, _, _, hc, _⟩
  · rw [hc] at hok
    cases hok
    exact hu
  · rw [hc] at hok
    cases hok
  · rw [hc] at hok
    cases hok
    rw [(deleteWebsiteCallback_fields h pre.length s).2.2.2]
    exact List.Pairwise.sublist (List.eraseIdx_sublist _ _) hu

theorem clearAll_unique (h : Host) (s : Manager) (hu : UrlsUnique s.websites) :
    UrlsUnique (clearAll h s).websites := by
  rcases clearAll_cases h s with hc | ⟨_, hc⟩
  · rw [hc]
    exact hu
  · rw [hc]
    exact List.Pairwise.nil

theorem step_remove_ok (h : Host) (s s1 : Manager) (id : Int)
    (hd : remove h s id = Except.ok s1) : step h s (Op.remove id) = s1 := by
  simp [step, hd]

theorem step_remove_error (h : Host) (s : Manager) (id : Int) (e : JsError)
    (hd : remove h s id = Except.error e) : step h s (Op.remove id) = s := by
  simp [step, hd]

theorem step_unique (h : Host) (s : Manager) (op : Op) (hu : UrlsUnique s.websites) :
    UrlsUnique (step h s op).websites := by
  cases op with
  | add now iso url tags => exact saveWebsite_unique h now iso s url tags hu
  | remove id =>
    cases hd : remove h s id with
    | ok s1 =>
      rw [step_remove_ok h s s1 id hd]
      exact remove_unique h s s1 id hu hd
    | error e =>
      rw [step_remove_error h s id e hd]
      exact hu
  | clear => exact clearAll_unique h s hu
  | search query => exact hu
  | typeUrl value => exact hu
  | typeTags value => exact hu


theorem step_dichotomy (h : Host) (s : Manager) (op : Op) :
    ((step h s op).websites ≠ s.websites ∧ WrittenThrough h (step h s op) ∧
      (step h s op).setItemCalls = s.setItemCalls + 1) ∨
    ((step h s op).websites = s.websites ∧ (step h s op).storage = s.storage ∧
      (step h s op).setItemCalls = s.setItemCalls) := by
  cases op with
  | add now iso url tags =>
    have hs : step h s (Op.add now iso url tags) = saveWebsite h now iso s url tags := rfl
    rcases saveWebsite_cases h now iso s url tags with hc | hc | ⟨_, _, hc⟩
    · rw [hs, hc]
      exact Or.inr ⟨rfl, rfl, rfl⟩
    · rw [hs, hc]
      exact Or.inr ⟨rfl, rfl, rfl⟩
    · rw [hs, hc]
      refine Or.inl ⟨?_, rfl, rfl⟩
      intro heq
      have hlen := congrArg List.length heq
      simp at hlen
  | remove id =>
    rcases remove_cases h s id with ⟨_, hd⟩ | ⟨_, hd⟩ | ⟨pre, w, suf, hws, _, _, hd, hres⟩
    · rw [step_remove_ok h s s id hd]
      exact Or.inr ⟨rfl, rfl, rfl⟩
    · rw [step_remove_error h s id _ hd]
      exact Or.inr ⟨rfl, rfl, rfl⟩
    · rw [step_remove_ok h s _ id hd]
      have hf := deleteWebsiteCallback_fields h pre.length s
      refine Or.inl ⟨?_, hf.1, hf.2.1⟩
      rw [hres, hws]
      intro heq
      have hlen := congrArg List.length heq
      simp at hlen
  | clear =>
    have hs : step h s Op.clear = clearAll h s := rfl
    rcases clearAll_cases h s with hc | ⟨hne, hc⟩
    · rw [hs, hc]
      exact Or.inr ⟨rfl, rfl, rfl⟩
    · rw [hs, hc]
      exact Or.inl ⟨fun heq => hne heq.symm, rfl, rfl⟩
  | search query => exact Or.inr ⟨rfl, rfl, rfl⟩
  | typeUrl value => exact Or.inr ⟨rfl, rfl, rfl⟩
  | typeTags value => exact Or.inr ⟨rfl, rfl, rfl⟩

/-! ## The claims -/

/-- C1 (amended): for every store and every non-empty url that no entry already
has, `saveWebsite(url, tags)` succeeds: the collection afterwards is the old one,
unchanged and in order, followed by exactly one new entry with that url, which is
the only entry with that url and the last one; its tags are `tags` when `tags` is
non-empty and the pieces of the tag input field when `tags` is empty. -/
theorem saveWebsite_appends (h : Host) (now : Int) (iso : String) (s : Manager)
    (url : String) (tags : List String) (hne : url ≠ "")
    (hnew : ∀ site ∈ s.websites, site.url ≠ url) :
    ∃ entry : Website,
      (saveWebsite h now iso s (some url) tags).websites = s.websites ++ [entry] ∧
      entry.url = url ∧
      entry.tags = (if tags = [] then parseTags s.tagInput else tags) ∧
      (saveWebsite h now iso s (some url) tags).toasts =
        s.toasts ++ [("保存成功！", ToastType.success)] ∧
      (saveWebsite h now iso s (some url) tags).websites.filter
        (fun site => decide (site.url = url)) = [entry] ∧
      (saveWebsite h now iso s (some url) tags).websites.getLast? = some entry ∧
      (saveWebsite h now iso s (some url) tags).storage =
        some (h.stringify (s.websites ++ [entry])) := by
  have hu : websiteUrlOf s (some url) = url := websiteUrlOf_some s url hne
  have hne2 : websiteUrlOf s (some url) ≠ "" := by rw [hu]; exact hne
  have hnew2 : ∀ site ∈ s.websites, site.url ≠ websiteUrlOf s (some url) := by
    rw [hu]; exact hnew
  have hfresh := saveWebsite_fresh h now iso s (some url) tags hne2 hnew2
  have hentry : (newEntry h now iso s (some url) tags).url = url := hu
  refine ⟨newEntry h now iso s (some url) tags, ?_, hentry, ?_, ?_, ?_, ?_, ?_⟩
  · rw [hfresh]
  · exact websiteTagsOf_eq s tags
  · rw [hfresh]
  · rw [hfresh]
    have hf := filter_url_append_fresh s.websites (newEntry h now iso s (some url) tags)
      (by rw [hentry]; exact hnew)
    rw [hentry] at hf
    exact hf
  · rw [hfresh]
    simp
  · rw [hfresh]

/-- Witness of C1: saving "xyz" with tags ["t"] into the store that shows the
search example's two entries. -/
theorem saveWebsite_appends_witness :
    ∃ entry : Website,
      (saveWebsite demoHost 9 "t" (shown [siteExample, siteTest]) (some "xyz") ["t"]).websites =
        (shown [siteExample, siteTest]).websites ++ [entry] ∧
      entry.url = "xyz" ∧
      entry.tags = (if ["t"] = [] then parseTags (shown [siteExample, siteTest]).tagInput
        else ["t"]) ∧
      (saveWebsite demoHost 9 "t" (shown [siteExample, siteTest]) (some "xyz") ["t"]).toasts =
        (shown [siteExample, siteTest]).toasts ++ [("保存成功！", ToastType.success)] ∧
      (saveWebsite demoHost 9 "t" (shown [siteExample, siteTest]) (some "xyz") ["t"]).websites.filter
        (fun site => decide (site.url = "xyz")) = [entry] ∧
      (saveWebsite demoHost 9 "t" (shown [siteExample, siteTest]) (some "xyz")
        ["t"]).websites.getLast? = some entry ∧
      (saveWebsite demoHost 9 "t" (shown [siteExample, siteTest]) (some "xyz") ["t"]).storage =
        some (demoHost.stringify ((shown [siteExample, siteTest]).websites ++ [entry])) :=
  saveWebsite_appends demoHost 9 "t" (shown [siteExample, siteTest]) "xyz" ["t"]
    (by decide) (by decide)

/-- Counterexample to C1 as stated: with the tag field holding "x, y", saving the
new url "abc" with the empty tag list appends an entry whose tags are ["x", "y"],
not the empty list that was passed. -/
theorem saveWebsite_empty_tags_counterexample :
    (saveWebsite demoHost 5 "t" (shownTyped [] "" "x, y") (some "abc") []).websites =
      [{ id := 5, url := "abc", tags := ["x", "y"], title := "abc", timestamp := "t" }] ∧
    ¬ ∃ entry : Website,
      (saveWebsite demoHost 5 "t" (shownTyped [] "" "x, y") (some "abc")
        []).websites = (shownTyped [] "" "x, y").websites ++ [entry] ∧
      entry.url = "abc" ∧ entry.tags = [] := by
  have hval : (saveWebsite demoHost 5 "t" (shownTyped [] "" "x, y") (some "abc")
      []).websites =
      [{ id := 5, url := "abc", tags := ["x", "y"], title := "abc", timestamp := "t" }] := by
    decide
  refine ⟨hval, ?_⟩
  rintro ⟨entry, hws, _, htags⟩
  rw [hval] at hws
  have hentry : entry = Website.mk 5 "abc" ["x", "y"] "abc" "t" := by
    simpa [shownTyped, eq_comm] using hws
  rw [hentry] at htags
  exact absurd htags (by decide)

/-- C2 (amended): for every store, `saveWebsite` called without a url or with the
empty string while the url input field is empty or holds only whitespace fails
with the validation toast: no entry is appended, the collection, the slot and the
rendered list are unchanged and `setItem` is not called. -/
theorem saveWebsite_rejects_blank (h : Host) (now : Int) (iso : String) (s : Manager)
    (url : Option String) (tags : List String)
    (harg : url = none ∨ url = some "")
    (hfield : ∀ c ∈ s.urlInput.data, isTrimChar c = true) :
    saveWebsite h now iso s url tags = showToast s "请输入网址！" ToastType.error ∧
    (saveWebsite h now iso s url tags).websites = s.websites ∧
    (saveWebsite h now iso s url tags).storage = s.storage ∧
    (saveWebsite h now iso s url tags).setItemCalls = s.setItemCalls ∧
    (saveWebsite h now iso s url tags).container = s.container := by
  have hurl : websiteUrlOf s url = "" := by
    rcases harg with rfl | rfl
    · exact trim_blank s.urlInput hfield
    · simpa [websiteUrlOf] using trim_blank s.urlInput hfield
  rw [saveWebsite_blank h now iso s url tags hurl]
  simp [showToast]

/-- Witness of C2: the empty url with a url field of three spaces. -/
theorem saveWebsite_rejects_blank_witness :
    saveWebsite demoHost 9 "t" (shownTyped [siteExample] "   " "") (some "") ["t"] =
      showToast (shownTyped [siteExample] "   " "") "请输入网址！" ToastType.error ∧
    (saveWebsite demoHost 9 "t" (shownTyped [siteExample] "   " "") (some "")
      ["t"]).websites = [siteExample] :=
  ⟨(saveWebsite_rejects_blank demoHost 9 "t" (shownTyped [siteExample] "   " "")
      (some "") ["t"] (Or.inr rfl) (by decide)).1,
   (saveWebsite_rejects_blank demoHost 9 "t" (shownTyped [siteExample] "   " "")
      (some "") ["t"] (Or.inr rfl) (by decide)).2.1⟩

/-- Counterexample to C2 as stated: the url of three spaces is saved (the argument
is not trimmed), and the empty url is replaced by the content of the url field,
here "abc", which is saved; both calls append an entry and write the slot. -/
theorem saveWebsite_blank_counterexample :
    ((saveWebsite demoHost 5 "t" emptyManager (some "   ") []).websites =
        [{ id := 5, url := "   ", tags := [], title := "   ", timestamp := "t" }] ∧
      (saveWebsite demoHost 5 "t" emptyManager (some "   ") []).setItemCalls = 1 ∧
      (saveWebsite demoHost 5 "t" emptyManager (some "   ") []).toasts =
        [("保存成功！", ToastType.success)]) ∧
    ((saveWebsite demoHost 5 "t" (shownTyped [] "abc" "") (some "") []).websites =
        [{ id := 5, url := "abc", tags := [], title := "abc", timestamp := "t" }] ∧
      (saveWebsite demoHost 5 "t" (shownTyped [] "abc" "") (some "")
        []).setItemCalls = 1 ∧
      (saveWebsite demoHost 5 "t" (shownTyped [] "abc" "") (some "") []).toasts =
        [("保存成功！", ToastType.success)]) := by
  decide


/-- C3 (amended): for every store, every non-empty url `u` and every two tag lists,
`saveWebsite(u, t1)` followed by `saveWebsite(u, t2)` makes the second call fail
with the duplicate toast and leave the collection, the slot and the write count
as the first call left them; when no entry had url `u` before the first call, the
collection is then the old one followed by the entry of the first call, which is
its only entry with url `u` and carries the tags of the first call (`t1`, or the
pieces of the tag field when `t1` is empty). A non-empty url is rejected as a
duplicate exactly when some entry's url is the same string. -/
theorem saveWebsite_twice (h : Host) (now1 now2 : Int) (iso1 iso2 : String) (s : Manager)
    (u : String) (t1 t2 : List String) (hne : u ≠ "") :
    saveWebsite h now2 iso2 (saveWebsite h now1 iso1 s (some u) t1) (some u) t2 =
      showToast (saveWebsite h now1 iso1 s (some u) t1) "该网址已存在！" ToastType.warning ∧
    (saveWebsite h now2 iso2 (saveWebsite h now1 iso1 s (some u) t1) (some u) t2).websites =
      (saveWebsite h now1 iso1 s (some u) t1).websites ∧
    (saveWebsite h now2 iso2 (saveWebsite h now1 iso1 s (some u) t1) (some u) t2).storage =
      (saveWebsite h now1 iso1 s (some u) t1).storage ∧
    (saveWebsite h now2 iso2 (saveWebsite h now1 iso1 s (some u) t1) (some u) t2).setItemCalls =
      (saveWebsite h now1 iso1 s (some u) t1).setItemCalls ∧
    ((∀ site ∈ s.websites, site.url ≠ u) →
      ∃ entry : Website,
        (saveWebsite h now2 iso2 (saveWebsite h now1 iso1 s (some u) t1) (some u) t2).websites =
          s.websites ++ [entry] ∧
        entry.url = u ∧
        entry.tags = (if t1 = [] then parseTags s.tagInput else t1) ∧
        (saveWebsite h now2 iso2 (saveWebsite h now1 iso1 s (some u) t1) (some u)
          t2).websites.filter (fun site => decide (site.url = u)) = [entry]) ∧
    (∀ (m : Manager) (v : String) (t : List String), v ≠ "" →
      (saveWebsite h now2 iso2 m (some v) t =
          showToast m "该网址已存在！" ToastType.warning ↔
        ∃ site ∈ m.websites, site.url = v)) := by
  have hu : ∀ m : Manager, websiteUrlOf m (some u) = u := fun m => websiteUrlOf_some m u hne
  have hfirst : ∃ site ∈ (saveWebsite h now1 iso1 s (some u) t1).websites, site.url = u := by
    by_cases hdup : ∃ site ∈ s.websites, site.url = u
    · rw [saveWebsite_dup h now1 iso1 s (some u) t1 (by rw [hu]; exact hne)
        (by rw [hu]; exact hdup)]
      exact hdup
    · have hnew : ∀ site ∈ s.websites, site.url ≠ websiteUrlOf s (some u) := by
        intro site hmem heq
        rw [hu] at heq
        exact hdup ⟨site, hmem, heq⟩
      rw [saveWebsite_fresh h now1 iso1 s (some u) t1 (by rw [hu]; exact hne) hnew]
      exact ⟨newEntry h now1 iso1 s (some u) t1, by simp, hu s⟩
  have hsecond := saveWebsite_dup h now2 iso2 (saveWebsite h now1 iso1 s (some u) t1) (some u) t2
    (by rw [hu]; exact hne) (by rw [hu]; exact hfirst)
  refine ⟨hsecond, by rw [hsecond]; rfl, by rw [hsecond]; rfl, by rw [hsecond]; rfl, ?_, ?_⟩
  · intro hnew
    have hnew2 : ∀ site ∈ s.websites, site.url ≠ websiteUrlOf s (some u) := by
      rw [hu]; exact hnew
    have hfresh := saveWebsite_fresh h now1 iso1 s (some u) t1 (by rw [hu]; exact hne) hnew2
    have hentry : (newEntry h now1 iso1 s (some u) t1).url = u := hu s
    have hws : (saveWebsite h now2 iso2 (saveWebsite h now1 iso1 s (some u) t1) (some u)
        t2).websites = s.websites ++ [newEntry h now1 iso1 s (some u) t1] := by
      rw [hsecond, hfresh]
      rfl
    refine ⟨newEntry h now1 iso1 s (some u) t1, hws, hentry, websiteTagsOf_eq s t1, ?_⟩
    rw [hws]
    have hf := filter_url_append_fresh s.websites (newEntry h now1 iso1 s (some u) t1)
      (by rw [hentry]; exact hnew)
    rw [hentry] at hf
    exact hf
  · intro m v t hv
    have hv2 : websiteUrlOf m (some v) = v := websiteUrlOf_some m v hv
    constructor
    · intro hrej
      by_contra hno
      have hnew : ∀ site ∈ m.websites, site.url ≠ websiteUrlOf m (some v) := by
        intro site hmem heq
        rw [hv2] at heq
        exact hno ⟨site, hmem, heq⟩
      rw [saveWebsite_fresh h now2 iso2 m (some v) t (by rw [hv2]; exact hv) hnew] at hrej
      have hlen := congrArg (fun x => x.websites.length) hrej
      simp [showToast] at hlen
    · intro hdup
      exact saveWebsite_dup h now2 iso2 m (some v) t (by rw [hv2]; exact hv)
        (by rw [hv2]; exact hdup)

/-- Witness of C3: "xyz" saved twice, with different tags, into the store showing
the search example's two entries; and "ABC" is not a duplicate of the saved "abc". -/
theorem saveWebsite_twice_witness :
    (saveWebsite demoHost 6 "t" (saveWebsite demoHost 5 "t" (shown [siteExample, siteTest])
        (some "xyz") ["one"]) (some "xyz") ["two"]).websites =
      (saveWebsite demoHost 5 "t" (shown [siteExample, siteTest]) (some "xyz") ["one"]).websites ∧
    (saveWebsite demoHost 6 "t" (saveWebsite demoHost 5 "t" (shown [siteExample, siteTest])
        (some "xyz") ["one"]) (some "xyz") ["two"]).websites =
      [siteExample, siteTest, Website.mk 5 "xyz" ["one"] "xyz" "t"] ∧
    (saveWebsite demoHost 6 "t" (shown [siteOld]) (some "ABC") ["x"]).websites.map
      (fun site => site.url) = ["abc", "ABC"] :=
  ⟨(saveWebsite_twice demoHost 5 6 "t" "t" (shown [siteExample, siteTest]) "xyz" ["one"] ["two"]
      (by decide)).2.1, by decide, by decide⟩

/-- Counterexample to C3 as stated, three ways. A url that was already saved keeps
the tags it had, not those of the first call; the empty url is taken from the url
field, which the first call clears, so the second call fails as a validation
error and not as a duplicate; and a first call with the empty tag list stores the
pieces of the tag field. -/
theorem saveWebsite_twice_counterexample :
    ((saveWebsite demoHost 6 "t" (saveWebsite demoHost 5 "t" (shown [siteOld]) (some "abc")
        ["new"]) (some "abc") ["newer"]).websites.filter
        (fun site => decide (site.url = "abc"))).map (fun site => site.tags) = [["old"]] ∧
    (saveWebsite demoHost 6 "t" (saveWebsite demoHost 5 "t" (shownTyped [] "abc" "") (some "")
        ["one"]) (some "") ["two"]).toasts =
      [("保存成功！", ToastType.success), ("请输入网址！", ToastType.error)] ∧
    (saveWebsite demoHost 6 "t" (saveWebsite demoHost 5 "t" (shownTyped [] "" "x, y") (some "abc")
        []) (some "abc") ["two"]).websites.map (fun site => site.tags) = [["x", "y"]] := by
  decide

/-- C4, the code at three failing inputs. (1) The store shows the entries with
ids 1 and 2 and `deleteWebsite(1)` is called twice before a callback runs (a
double click): both calls capture index 0, the first callback removes the entry
with id 1, and the second callback, on its stale index, removes the entry with
id 2 and writes again, where the second remove should be a no-op. (2) After a
search for "test" the entry with id 1 is in the collection but not displayed:
`deleteWebsite(1)` throws at line 194 and removes nothing. (3) Two entries saved
in the same clock tick carry the id 7: the first removal deletes one of them and
the second removal deletes the other. -/
theorem deleteWebsite_defects :
    (deleteWebsite (shown [siteExample, siteTest]) 1 = Except.ok (some 0) ∧
      (deleteWebsiteCallback demoHost 0 (shown [siteExample, siteTest])).websites =
        [siteTest] ∧
      (deleteWebsiteCallback demoHost 0
        (deleteWebsiteCallback demoHost 0 (shown [siteExample, siteTest]))).websites = [] ∧
      (deleteWebsiteCallback demoHost 0
        (deleteWebsiteCallback demoHost 0 (shown [siteExample, siteTest]))).setItemCalls =
        (deleteWebsiteCallback demoHost 0 (shown [siteExample, siteTest])).setItemCalls + 1) ∧
    (deleteWebsite (search demoHost (shown [siteExample, siteTest]) "test") 1 =
        Except.error JsError.typeError ∧
      remove demoHost (search demoHost (shown [siteExample, siteTest]) "test") 1 =
        Except.error JsError.typeError ∧
      (step demoHost (search demoHost (shown [siteExample, siteTest]) "test")
        (Op.remove 1)).websites = [siteExample, siteTest]) ∧
    (twinsManager.websites.map (fun site => (site.id, site.url)) = [(7, "a"), (7, "b")] ∧
      (step demoHost twinsManager (Op.remove 7)).websites.map (fun site => site.url) = ["b"] ∧
      (step demoHost (step demoHost twinsManager (Op.remove 7)) (Op.remove 7)).websites = [] ∧
      (step demoHost (step demoHost twinsManager (Op.remove 7)) (Op.remove 7)).setItemCalls =
        (step demoHost twinsManager (Op.remove 7)).setItemCalls + 1) := by
  refine ⟨⟨by rfl, by decide, by decide, by decide⟩, ⟨by rfl, by rfl, by decide⟩,
    by decide, by decide, by decide, by decide⟩

/-- C5, the code at the failing input: the store shows the search example's two
entries, a search for "zzz" leaves nothing displayed, and `clearAll()` then
changes nothing: the collection still holds both entries, no callback ever runs. -/
theorem clearAll_nothing_displayed :
    (search demoHost (shown [siteExample, siteTest]) "zzz").websites = [siteExample, siteTest] ∧
    (search demoHost (shown [siteExample, siteTest]) "zzz").container = [] ∧
    clearAll demoHost (search demoHost (shown [siteExample, siteTest]) "zzz") =
      search demoHost (shown [siteExample, siteTest]) "zzz" ∧
    (clearAll demoHost (search demoHost (shown [siteExample, siteTest]) "zzz")).websites ≠ [] := by
  decide


/-- C6: for every store and every query, `search(query)` renders exactly the
collection filtered by the predicate "the url contains the query as a
case-insensitive substring, or at least one tag does": an entry is in the result
exactly when it is in the collection and matches, the result keeps the
collection's order, and the collection, the slot and the write count are not
touched. With the entries of the specification's example, "exam" and "NEWS" yield
only the first entry and "zzz" yields nothing. -/
theorem search_filters :
    (∀ (h : Host) (s : Manager) (q : String),
      (∃ keep : Website → Bool, (∀ site, keep site = true ↔ SpecMatches h q site) ∧
        (search h s q).container = s.websites.filter keep) ∧
      (∀ site, site ∈ (search h s q).container ↔ site ∈ s.websites ∧ SpecMatches h q site) ∧
      (search h s q).container.Sublist s.websites ∧
      (search h s q).websites = s.websites ∧
      (search h s q).storage = s.storage ∧
      (search h s q).setItemCalls = s.setItemCalls) ∧
    (search demoHost (shown [siteExample, siteTest]) "exam").container = [siteExample] ∧
    (search demoHost (shown [siteExample, siteTest]) "NEWS").container = [siteExample] ∧
    (search demoHost (shown [siteExample, siteTest]) "zzz").container = [] := by
  refine ⟨?_, by decide, by decide, by decide⟩
  intro h s q
  have hc : (search h s q).container = s.websites.filter (searchMatches h q) := rfl
  refine ⟨⟨searchMatches h q, fun site => searchMatches_iff h q site, hc⟩, ?_, ?_, rfl, rfl, rfl⟩
  · intro site
    rw [hc, List.mem_filter, searchMatches_iff]
  · rw [hc]
    exact List.filter_sublist _

/-- C7: for every store, on a host whose lowercasing maps the empty string to
itself, `search("")` renders the full collection: every entry, once, in the
collection's order, tagged or not. -/
theorem search_empty_query (h : Host) (s : Manager) (hlow : h.toLowerCase "" = "") :
    (search h s "").container = s.websites := by
  have hall : ∀ site ∈ s.websites, searchMatches h "" site = true := by
    intro site _
    unfold searchMatches includes
    rw [hlow]
    simp [includesChars_nil]
  show s.websites.filter (searchMatches h "") = s.websites
  exact List.filter_eq_self.2 hall

/-- Witness of C7: a collection with a tagged and an untagged entry. -/
theorem search_empty_query_witness :
    demoHost.toLowerCase "" = "" ∧
    (search demoHost (shown [siteExample, siteUntagged, siteTest]) "").container =
      [siteExample, siteUntagged, siteTest] :=
  ⟨by decide, search_empty_query demoHost (shown [siteExample, siteUntagged, siteTest])
    (by decide)⟩

/-- C8 (amended): on a host that parses the text of the empty array to the empty
collection, the constructor yields a store with an empty collection when the
slot is absent or holds the empty string; when the slot holds a non-empty blob
that fails to parse, the constructor throws the parse error and yields no store. -/
theorem construct_spec (h : Host) (slot : Option String) (urlField tagField : String)
    (hparse : h.parse "[]" = some []) :
    ((slot = none ∨ slot = some "") →
      construct h slot urlField tagField = Except.ok
        { websites := [], storage := slot, setItemCalls := 0, urlInput := urlField,
          tagInput := tagField, container := [], toasts := [] }) ∧
    (∀ blob : String, slot = some blob → blob ≠ "" → h.parse blob = none →
      construct h slot urlField tagField = Except.error JsError.syntaxError) := by
  constructor
  · rintro (rfl | rfl)
    · simp [construct, hparse, render, renderWebsites]
    · simp [construct, hparse, render, renderWebsites]
  · rintro blob rfl hne hfail
    simp [construct, hne, hfail]

/-- Witness of C8: an absent slot, and a slot holding a text that is not JSON. -/
theorem construct_spec_witness :
    construct demoHost none "" "" = Except.ok emptyManager ∧
    construct demoHost (some "not json") "" "" = Except.error JsError.syntaxError :=
  ⟨(construct_spec demoHost none "" "" (by decide)).1 (Or.inl rfl),
   (construct_spec demoHost (some "not json") "" "" (by decide)).2 "not json" rfl
     (by decide) (by decide)⟩

/-- Counterexample to C8 as stated: with the slot holding "not json" the
constructor yields no store at all, so no store with an empty collection. -/
theorem construct_counterexample :
    demoHost.parse "not json" = none ∧
    ¬ ∃ m : Manager, construct demoHost (some "not json") "" "" = Except.ok m ∧
      m.websites = [] := by
  refine ⟨by decide, ?_⟩
  rintro ⟨m, hm, _⟩
  have herr : construct demoHost (some "not json") "" "" = Except.error JsError.syntaxError := by
    rfl
  rw [herr] at hm
  cases hm

/-- C9: url uniqueness is an invariant of the store. If no two entries share a
url, the same holds after `saveWebsite` with any arguments, after a
`deleteWebsite` completed by its callback, after `clearAll`, after any operation
of the store, and after a callback of `deleteWebsite` that runs late, whatever
index it captured; hence it holds in every state reachable from a store with an
empty collection, late callbacks included. -/
theorem urls_unique_invariant (h : Host) :
    (∀ (now : Int) (iso : String) (s : Manager) (url : Option String) (tags : List String),
      UrlsUnique s.websites → UrlsUnique (saveWebsite h now iso s url tags).websites) ∧
    (∀ (s s1 : Manager) (id : Int), UrlsUnique s.websites →
      remove h s id = Except.ok s1 → UrlsUnique s1.websites) ∧
    (∀ s : Manager, UrlsUnique s.websites → UrlsUnique (clearAll h s).websites) ∧
    (∀ (s : Manager) (op : Op), UrlsUnique s.websites → UrlsUnique (step h s op).websites) ∧
    (∀ s : Manager, Reachable h s → UrlsUnique s.websites) ∧
    (∀ (s : Manager) (index : Nat), UrlsUnique s.websites →
      UrlsUnique (deleteWebsiteCallback h index s).websites) := by
  refine ⟨fun now iso s url tags hu => saveWebsite_unique h now iso s url tags hu,
    fun s s1 id hu hok => remove_unique h s s1 id hu hok,
    fun s hu => clearAll_unique h s hu,
    fun s op hu => step_unique h s op hu, ?_,
    fun s index hu => callback_unique h s index hu⟩
  intro s hr
  induction hr with
  | init s hs =>
    rw [hs]
    exact List.Pairwise.nil
  | next s op _ ih => exact step_unique h s op ih
  | lateDelete s index _ ih => exact callback_unique h s index ih
  | lateClear s _ _ => exact List.Pairwise.nil

/-- Witness of C9: the store after two saves in one clock tick, then a removal,
is reachable and has pairwise distinct urls. -/
theorem urls_unique_invariant_witness :
    UrlsUnique (step demoHost twinsManager (Op.remove 7)).websites ∧
    UrlsUnique twinsManager.websites :=
  ⟨(urls_unique_invariant demoHost).2.2.2.1 twinsManager (Op.remove 7)
      ((urls_unique_invariant demoHost).2.2.2.2.1 twinsManager
        (Reachable.next _ (Op.add 7 "2024-01-01T00:00:04.000Z" (some "b") [])
          (Reachable.next _ (Op.add 7 "2024-01-01T00:00:04.000Z" (some "a") [])
            (Reachable.init emptyManager rfl)))),
   (urls_unique_invariant demoHost).2.2.2.2.1 twinsManager
      (Reachable.next _ (Op.add 7 "2024-01-01T00:00:04.000Z" (some "b") [])
        (Reachable.next _ (Op.add 7 "2024-01-01T00:00:04.000Z" (some "a") [])
          (Reachable.init emptyManager rfl)))⟩


/-- C10: write-through persistence. Every operation of the store either changes
the collection, calls `setItem` once and ends with the slot holding the
serialization of the full current collection, or leaves the collection, the slot
and the write count unchanged; so "slot = serialize(collection)" is preserved by
every operation. A save of a fresh non-empty url, a removal of a displayed entry's
id and a clear of a non-empty collection with something displayed are of the
first kind; a save rejected as blank or duplicate, a removal of an id no entry
carries and a clear of an empty collection are of the second. A callback of
`deleteWebsite` that runs late also ends with the slot holding the serialization
of the collection, whatever index it captured. -/
theorem write_through (h : Host) (s : Manager) :
    (∀ op : Op,
      ((step h s op).websites ≠ s.websites ∧ WrittenThrough h (step h s op) ∧
        (step h s op).setItemCalls = s.setItemCalls + 1) ∨
      ((step h s op).websites = s.websites ∧ (step h s op).storage = s.storage ∧
        (step h s op).setItemCalls = s.setItemCalls)) ∧
    (∀ op : Op, WrittenThrough h s → WrittenThrough h (step h s op)) ∧
    (∀ (now : Int) (iso : String) (url : Option String) (tags : List String),
      websiteUrlOf s url ≠ "" → (∀ site ∈ s.websites, site.url ≠ websiteUrlOf s url) →
      (step h s (Op.add now iso url tags)).websites ≠ s.websites ∧
      WrittenThrough h (step h s (Op.add now iso url tags))) ∧
    (∀ id : Int, (∃ site ∈ s.websites, site.id = id) → (∃ site ∈ s.container, site.id = id) →
      (step h s (Op.remove id)).websites ≠ s.websites ∧
      WrittenThrough h (step h s (Op.remove id))) ∧
    (s.websites ≠ [] → s.container ≠ [] →
      (step h s Op.clear).websites = [] ∧ WrittenThrough h (step h s Op.clear)) ∧
    (∀ (now : Int) (iso : String) (url : Option String) (tags : List String),
      (websiteUrlOf s url = "" ∨ ∃ site ∈ s.websites, site.url = websiteUrlOf s url) →
      (step h s (Op.add now iso url tags)).websites = s.websites ∧
      (step h s (Op.add now iso url tags)).storage = s.storage ∧
      (step h s (Op.add now iso url tags)).setItemCalls = s.setItemCalls) ∧
    (∀ id : Int, (∀ site ∈ s.websites, site.id ≠ id) → step h s (Op.remove id) = s) ∧
    (s.websites = [] → step h s Op.clear = s) ∧
    (∀ index : Nat, WrittenThrough h (deleteWebsiteCallback h index s)) := by
  refine ⟨fun op => step_dichotomy h s op, ?_, ?_, ?_, ?_, ?_, ?_, ?_,
    fun index => (deleteWebsiteCallback_fields h index s).1⟩
  · intro op hinv
    rcases step_dichotomy h s op with ⟨_, hw, _⟩ | ⟨hws, hst, _⟩
    · exact hw
    · unfold WrittenThrough at *
      rw [hst, hws]
      exact hinv
  · intro now iso url tags hurl hnew
    have hs : step h s (Op.add now iso url tags) = saveWebsite h now iso s url tags := rfl
    rw [hs, saveWebsite_fresh h now iso s url tags hurl hnew]
    refine ⟨?_, rfl⟩
    intro heq
    have hlen := congrArg List.length heq
    simp at hlen
  · intro id hmem hshown
    rcases remove_cases h s id with
      ⟨habs, _⟩ | ⟨hhid, _⟩ | ⟨pre, w, suf, hws, _, _, hd, hres⟩
    · obtain ⟨site, hm, hid⟩ := hmem
      exact absurd hid (habs site hm)
    · obtain ⟨site, hm, hid⟩ := hshown
      exact absurd hid (hhid site hm)
    · rw [step_remove_ok h s _ id hd]
      have hf := deleteWebsiteCallback_fields h pre.length s
      refine ⟨?_, hf.1⟩
      rw [hres, hws]
      intro heq
      have hlen := congrArg List.length heq
      simp at hlen
  · intro hne hshown
    have hs : step h s Op.clear = clearAll h s := rfl
    rw [hs, clearAll_shown h s hne hshown]
    exact ⟨rfl, rfl⟩
  · intro now iso url tags hrej
    have hs : step h s (Op.add now iso url tags) = saveWebsite h now iso s url tags := rfl
    by_cases hurl : websiteUrlOf s url = ""
    · rw [hs, saveWebsite_blank h now iso s url tags hurl]
      exact ⟨rfl, rfl, rfl⟩
    · rcases hrej with hb | hdup
      · exact absurd hb hurl
      · rw [hs, saveWebsite_dup h now iso s url tags hurl hdup]
        exact ⟨rfl, rfl, rfl⟩
  · intro id habs
    exact step_remove_ok h s s id (remove_absent h s id habs)
  · intro hempty
    show clearAll h s = s
    simp [clearAll, hempty]

/-- Witness of C10: a clear and a removal from the store that shows the search
example's two entries. -/
theorem write_through_witness :
    WrittenThrough demoHost (step demoHost (shown [siteExample, siteTest]) Op.clear) ∧
    (step demoHost (shown [siteExample, siteTest]) Op.clear).websites = [] ∧
    WrittenThrough demoHost (step demoHost (shown [siteExample, siteTest]) (Op.remove 2)) :=
  ⟨(write_through demoHost (shown [siteExample, siteTest])).2.1 Op.clear rfl,
   ((write_through demoHost (shown [siteExample, siteTest])).2.2.2.2.1
      (by decide) (by decide)).1,
   ((write_through demoHost (shown [siteExample, siteTest])).2.2.2.1 2
      ⟨siteTest, by decide, by decide⟩ ⟨siteTest, by decide, by decide⟩).2⟩

end WebsiteManager
